import Mathlib

/-!
Verification development for the expense-tracker repository.

The repository has two layers:

* `expense_tracker_sqlalchemy.py` — an `ExpenseTrackerORM` class over a
  relational schema (`categories`, `transactions`), with a CLI front end.
  Its methods carry no user parameter.  We embed it in namespace `CLI`,
  translated directly from that file.
* `app_orm.py` — a Flask front end that calls a user-scoped variant of the
  tracker (`get_balance(uid)`, `get_transactions(uid, limit)`,
  `add_category(uid, name, type)`, `add_transaction(uid, ...)`,
  `delete_category(uid, cat_id)`, `delete_transaction(uid, trans_id)`,
  `create_user`, `verify_user`, `get_user_by_id`).  That user-scoped module
  is not present in the repository sources; only its caller is.  The
  user-scoped operations are therefore modelled from the specification
  (each such definition says so in its doc comment), re-using the query,
  ordering, sentinel and seeding logic of the CLI file where the spec and
  the caller show it is shared.

Amounts are embedded as rationals, business dates as year/month/day
triples, and the SQL tables as lists of rows.  Autoincrement primary keys
are modelled with explicit counters, `datetime.now()` with a logical clock
and a `today` field carried in the state.
-/

/-- `CategoryType` enum from `expense_tracker_sqlalchemy.py`
(`income = "income"`, `expense = "expense"`). -/
inductive CategoryType where
  | income
  | expense
deriving DecidableEq, Repr

/-- The string stored for a `CategoryType` (`cat.type.value` in the source). -/
def typeValue : CategoryType → String
  | .income => "income"
  | .expense => "expense"

/-- A calendar date `YYYY-MM-DD` (the `Date` column / `datetime.date`). -/
structure DateYMD where
  year : Nat
  month : Nat
  day : Nat
deriving DecidableEq, Repr

/-- Gregorian leap-year rule, as used by `datetime.strptime` date validation. -/
def isLeapYear (y : Nat) : Bool :=
  (y % 4 == 0 && y % 100 != 0) || (y % 400 == 0)

/-- Number of days in a month, as validated by `datetime.strptime`. -/
def daysInMonth (y m : Nat) : Nat :=
  if m = 2 then (if isLeapYear y then 29 else 28)
  else if m = 4 ∨ m = 6 ∨ m = 9 ∨ m = 11 then 30
  else 31

/-- Split a character list at every dash, the field separation performed
by `strptime` against the literal dashes of `"%Y-%m-%d"`. -/
def splitDash : List Char → List (List Char)
  | [] => [[]]
  | c :: cs =>
    if c = '-' then [] :: splitDash cs
    else
      match splitDash cs with
      | [] => [[c]]
      | g :: gs => (c :: g) :: gs

/-- Decimal reading of one field, accumulator form. -/
def charsToNatAux : List Char → Nat → Option Nat
  | [], acc => some acc
  | c :: cs, acc =>
    if 48 ≤ c.toNat ∧ c.toNat ≤ 57 then
      charsToNatAux cs (acc * 10 + (c.toNat - 48))
    else none

/-- Decimal reading of one field: all characters must be digits and the
field must be non-empty, as `strptime` requires of `%Y`, `%m`, `%d`. -/
def charsToNat? : List Char → Option Nat
  | [] => none
  | cs => charsToNatAux cs 0

/-- `datetime.strptime(s, "%Y-%m-%d").date()` from `add_transaction`:
three dash-separated decimal fields; `%Y` matches exactly four digits and
the resulting year must be at least 1 (`date` rejects year 0), `%m`
matches one or two digits valued 1..12, `%d` matches one or two digits
and the day must fit the month's calendar length; any other shape raises
`ValueError`, which we embed as `none`. -/
def parseDateYMD (s : String) : Option DateYMD :=
  match splitDash s.data with
  | [ys, ms, ds] =>
    match charsToNat? ys, charsToNat? ms, charsToNat? ds with
    | some y, some m, some d =>
      if ys.length = 4 ∧ 1 ≤ y ∧
          ms.length ≤ 2 ∧ 1 ≤ m ∧ m ≤ 12 ∧
          ds.length ≤ 2 ∧ 1 ≤ d ∧ d ≤ daysInMonth y m then some ⟨y, m, d⟩
      else none
    | _, _, _ => none
  | _ => none

/-- Strict date order `d1 < d2`, lexicographic on (year, month, day);
the order behind the `Date` column used by `ORDER BY date DESC`. -/
def dateLtb (d1 d2 : DateYMD) : Bool :=
  d1.year < d2.year ||
    (d1.year == d2.year &&
      (d1.month < d2.month || (d1.month == d2.month && d1.day < d2.day)))

/-- Lexicographic codepoint order on strings, the order behind
`ORDER BY name` on the `name` column (binary collation). -/
def strLeChars : List Char → List Char → Bool
  | [], _ => true
  | _ :: _, [] => false
  | a :: as, b :: bs =>
    if a.toNat < b.toNat then true
    else if b.toNat < a.toNat then false
    else strLeChars as bs

/-- String order on the underlying character lists. -/
def strLe (s1 s2 : String) : Bool :=
  strLeChars s1.data s2.data

/-- Insertion step of the sort used to embed SQL `ORDER BY`. -/
def insertSorted {α : Type} (le : α → α → Bool) (a : α) : List α → List α
  | [] => [a]
  | b :: l => if le a b then a :: b :: l else b :: insertSorted le a l

/-- Insertion sort by a boolean total preorder, embedding SQL `ORDER BY`. -/
def sortByKey {α : Type} (le : α → α → Bool) : List α → List α
  | [] => []
  | a :: l => insertSorted le a (sortByKey le l)

namespace CLI

/-!  Embedding of `expense_tracker_sqlalchemy.py` as present in the
repository: a single global `categories` table and `transactions` table,
no user column. -/

/-- A row of the `categories` table (`Category` model): id, name, type. -/
structure CategoryRow where
  id : Nat
  name : String
  ctype : CategoryType
deriving DecidableEq, Repr

/-- A row of the `transactions` table (`Transaction` model): id, amount,
nullable `category_id` (FK `ON DELETE SET NULL`), description, business
date, creation timestamp. -/
structure TransactionRow where
  id : Nat
  amount : Rat
  category_id : Option Nat
  description : String
  date : DateYMD
  created_at : Nat
deriving DecidableEq, Repr

/-- The persisted database state of the CLI tracker. -/
structure DBState where
  categories : List CategoryRow
  transactions : List TransactionRow
deriving DecidableEq, Repr

/-- `Base.metadata.drop_all(self.engine)` followed by
`Base.metadata.create_all(self.engine)`: all rows of both tables are
discarded and empty tables are recreated. -/
def drop_and_create_all (_st : DBState) : DBState :=
  { categories := [], transactions := [] }

/-- The `default_categories` list of `_add_default_categories`, with the
autoincrement ids 1..10 they receive on the fresh tables. -/
def default_categories : List CategoryRow :=
  [⟨1, "薪水", .income⟩, ⟨2, "投資收入", .income⟩, ⟨3, "其他收入", .income⟩,
   ⟨4, "餐費", .expense⟩, ⟨5, "交通", .expense⟩, ⟨6, "娛樂", .expense⟩,
   ⟨7, "購物", .expense⟩, ⟨8, "生活用品", .expense⟩, ⟨9, "醫療", .expense⟩,
   ⟨10, "其他支出", .expense⟩]

/-- `_add_default_categories`: counts existing categories, skips seeding
when the count is positive, otherwise inserts the ten defaults. -/
def add_default_categories (st : DBState) : DBState :=
  if st.categories.length > 0 then st
  else { st with categories := default_categories }

/-- `init_database` (as called from `__init__`): drop all tables, recreate
them, then seed the default categories. -/
def init_database (st : DBState) : DBState :=
  add_default_categories (drop_and_create_all st)

/-- `ORDER BY Category.type, Category.name`: enum index order on the type
(`income` before `expense`), then name ascending. -/
def catLe (c1 c2 : CategoryRow) : Bool :=
  match c1.ctype, c2.ctype with
  | .income, .expense => true
  | .expense, .income => false
  | _, _ => strLe c1.name c2.name

/-- `get_categories(category_type)`: `if category_type:` is Python
truthiness, so `None` and the empty string leave the query unfiltered;
any other string is mapped to `income` exactly when it equals `"income"`
and to `expense` otherwise; rows are ordered by (type, name) and returned
as `(id, name, type.value)` tuples. -/
def get_categories (st : DBState) (category_type : Option String) :
    List (Nat × String × String) :=
  let query := st.categories
  let query :=
    match category_type with
    | none => query
    | some s =>
      if s = "" then query
      else
        let cat_type := if s = "income" then CategoryType.income else CategoryType.expense
        query.filter (fun c => c.ctype == cat_type)
  (sortByKey catLe query).map (fun c => (c.id, c.name, typeValue c.ctype))

end CLI

/-!  The user-scoped tracker called by `app_orm.py`.  Rows additionally
carry the owning `user_id`; operations take the resolved user identity
`uid` as first argument, exactly as the Flask routes pass
`int(current_user.id)`. -/

/-- A row of the user-scoped `categories` table: id, owning user, name,
type.  The owning-user column is modelled from the spec
(`categories(id PK, user_id FK→users, name, type, ...)`). -/
structure CategoryRow where
  id : Nat
  user_id : Nat
  name : String
  ctype : CategoryType
deriving DecidableEq, Repr

/-- A row of the user-scoped `transactions` table: id, owning user,
amount, nullable category reference, description, business date, creation
timestamp.  The owning-user column is modelled from the spec. -/
structure TransactionRow where
  id : Nat
  user_id : Nat
  amount : Rat
  category_id : Option Nat
  description : String
  date : DateYMD
  created_at : Nat
deriving DecidableEq, Repr

/-- Database state of the user-scoped tracker, plus the autoincrement
counters of the two primary keys, the current calendar date
(`datetime.now().date()`) and a logical clock (`datetime.now()` as the
creation timestamp of new rows). -/
structure TrackerState where
  categories : List CategoryRow
  transactions : List TransactionRow
  next_category_id : Nat
  next_transaction_id : Nat
  today : DateYMD
  clock : Nat
deriving DecidableEq, Repr

/-- Error taxonomy of the spec: malformed input, uniqueness violation,
cross-user reference attempt. -/
inductive TrackerError where
  | validationError
  | conflictError
  | ownershipError
deriving DecidableEq, Repr

/-- Resolution of a transaction's category reference: the SQL join
`Transaction.category_id == Category.id` / the ORM `trans.category`
relationship.  A null or dangling reference resolves to `none`. -/
def resolveCategory (cats : List CategoryRow) : Option Nat → Option CategoryRow
  | none => none
  | some cid => cats.find? (fun c => c.id == cid)

/-- Modelled from the spec: the ownership verification of
`addTransaction` — a supplied `categoryId` must resolve to a category
row owned by `uid`; an omitted category is always acceptable
(`app_orm.py` explicitly allows the uncategorized case). -/
def ownership_check (st : TrackerState) (uid : Nat) : Option Nat → Bool
  | none => true
  | some cid =>
    match resolveCategory st.categories (some cid) with
    | some c => c.user_id == uid
    | none => false

/-- Modelled from the spec: `addTransaction(user, amount, categoryId?,
description, date?)` of the user-scoped module that `app_orm.py` calls
(absent from the repository sources).  Following the CLI
`add_transaction`, the date argument is handled first: omitted means the
current calendar date, a supplied string must parse as `YYYY-MM-DD` or the
call fails with `ValidationError`.  Then, per the spec, a supplied
`categoryId` must resolve to a category owned by `user` or the call fails
with `OwnershipError`.  On success one row is inserted and its identifier
returned; on failure the state is returned unchanged (nothing written). -/
def add_transaction (st : TrackerState) (uid : Nat) (amount : Rat)
    (categoryId : Option Nat) (description : String) (dateStr : Option String) :
    Except TrackerError Nat × TrackerState :=
  let dateResult : Except TrackerError DateYMD :=
    match dateStr with
    | none => .ok st.today
    | some s =>
      match parseDateYMD s with
      | some d => .ok d
      | none => .error .validationError
  match dateResult with
  | .error e => (.error e, st)
  | .ok date =>
    if ownership_check st uid categoryId then
      let tid := st.next_transaction_id
      let txn : TransactionRow :=
        ⟨tid, uid, amount, categoryId, description, date, st.clock⟩
      (.ok tid,
        { st with
            transactions := st.transactions ++ [txn]
            next_transaction_id := tid + 1
            clock := st.clock + 1 })
    else (.error .ownershipError, st)

/-- Modelled from the spec: `addCategory(user, name, type)` of the
user-scoped module (absent from the sources; `app_orm.py` validates the
type string at the route, so the type arrives here as the closed enum).
Fails with `ConflictError` when the (user, name, type) triple already
exists, leaving the state unchanged; otherwise inserts one row and
returns the new identifier. -/
def add_category (st : TrackerState) (uid : Nat) (name : String)
    (ctype : CategoryType) : Except TrackerError Nat × TrackerState :=
  if st.categories.any
      (fun c => c.user_id == uid && c.name == name && c.ctype == ctype) then
    (.error .conflictError, st)
  else
    let cid := st.next_category_id
    (.ok cid,
      { st with
          categories := st.categories ++ [⟨cid, uid, name, ctype⟩]
          next_category_id := cid + 1 })

/-- Modelled from the spec: `deleteCategory(user, categoryId)` of the
user-scoped module (absent from the sources).  No-op returning `false`
when no category with this id is owned by `user`; otherwise deletes that
row and, per the schema's `ON DELETE SET NULL` on
`transactions.category_id`, nulls the category reference of every
transaction that pointed to it, returning `true`. -/
def delete_category (st : TrackerState) (uid : Nat) (cid : Nat) :
    Bool × TrackerState :=
  match st.categories.find? (fun c => c.id == cid && c.user_id == uid) with
  | none => (false, st)
  | some _ =>
    (true,
      { st with
          categories := st.categories.eraseP (fun c => c.id == cid && c.user_id == uid)
          transactions := st.transactions.map (fun t =>
            if t.category_id = some cid then { t with category_id := none } else t) })

/-- Modelled from the spec: `deleteTransaction(user, transactionId)` of
the user-scoped module (absent from the sources).  No-op returning `false`
when no transaction with this id is owned by `user`; otherwise deletes it
and returns `true`. -/
def delete_transaction (st : TrackerState) (uid : Nat) (tid : Nat) :
    Bool × TrackerState :=
  match st.transactions.find? (fun t => t.id == tid && t.user_id == uid) with
  | none => (false, st)
  | some _ =>
    (true,
      { st with
          transactions := st.transactions.eraseP (fun t => t.id == tid && t.user_id == uid) })

/-- `ORDER BY Transaction.date DESC, Transaction.created_at DESC`:
`t1` may precede `t2` when its date is later, or the dates are equal and
its creation timestamp is no earlier. -/
def txnBefore (t1 t2 : TransactionRow) : Bool :=
  if t1.date = t2.date then t2.created_at ≤ t1.created_at
  else dateLtb t2.date t1.date

/-- A result row of `get_transactions`, field for field the tuple
`(id, amount, category_name, category_type, description, date)` built in
the source. -/
structure DisplayRow where
  id : Nat
  amount : Rat
  category_name : String
  category_type : String
  description : String
  date : DateYMD
deriving DecidableEq, Repr

/-- The row conversion of `get_transactions`: resolved category name with
the `"未分類"` (uncategorized) sentinel when the reference resolves to
nothing, resolved category type with the `"unknown"` sentinel likewise. -/
def displayRow (cats : List CategoryRow) (t : TransactionRow) : DisplayRow :=
  match resolveCategory cats t.category_id with
  | some c => ⟨t.id, t.amount, c.name, typeValue c.ctype, t.description, t.date⟩
  | none => ⟨t.id, t.amount, "未分類", "unknown", t.description, t.date⟩

/-- Modelled from the spec: `get_transactions(uid, limit)` of the
user-scoped module called by `app_orm.py` (absent from the sources);
query, ordering, limit and row shape follow the CLI `get_transactions`,
with the user filter added per the spec. -/
def get_transactions (st : TrackerState) (uid : Nat) (limit : Nat) :
    List DisplayRow :=
  (((sortByKey txnBefore
      (st.transactions.filter (fun t => t.user_id == uid))).take limit).map
    (displayRow st.categories))

/-- The dictionary returned by `get_balance`. -/
structure BalanceInfo where
  total_income : Rat
  total_expense : Rat
  balance : Rat
deriving DecidableEq, Repr

/-- The amount sum of one branch of `get_balance`: inner-join the user's
transactions to categories and keep those whose category has the given
type, then sum the amounts.  Transactions whose reference resolves to
nothing are dropped by the join. -/
def sumByType (st : TrackerState) (uid : Nat) (ty : CategoryType) : Rat :=
  (((st.transactions.filter (fun t => t.user_id == uid)).filter
      (fun t =>
        match resolveCategory st.categories t.category_id with
        | some c => c.ctype == ty
        | none => false)).map (fun t => t.amount)).sum

/-- Modelled from the spec: `get_balance(uid)` of the user-scoped module
called by `app_orm.py` (absent from the sources); the two join-and-sum
queries and the returned dictionary follow the CLI `get_balance`, with
the user filter added per the spec. -/
def get_balance (st : TrackerState) (uid : Nat) : BalanceInfo :=
  let total_income := sumByType st uid .income
  let total_expense := sumByType st uid .expense
  ⟨total_income, total_expense, total_income - total_expense⟩

/-- Modelled from the spec: `get_categories(uid, typeFilter?)` of the
user-scoped module called by `app_orm.py` (absent from the sources);
filter handling and ordering follow the CLI `get_categories`, with the
user filter added per the spec. -/
def get_categories (st : TrackerState) (uid : Nat)
    (category_type : Option String) : List (Nat × String × String) :=
  let query := st.categories.filter (fun c => c.user_id == uid)
  let query :=
    match category_type with
    | none => query
    | some s =>
      if s = "" then query
      else
        let cat_type := if s = "income" then CategoryType.income else CategoryType.expense
        query.filter (fun c => c.ctype == cat_type)
  (sortByKey (fun c1 c2 => CLI.catLe ⟨c1.id, c1.name, c1.ctype⟩ ⟨c2.id, c2.name, c2.ctype⟩)
      query).map (fun c => (c.id, c.name, typeValue c.ctype))

/-- Modelled from the spec: the invariants the relational schema keeps for
the user-scoped tables — category primary keys are pairwise distinct and
below the autoincrement counter, and (spec §3) every transaction's
category reference, when present, resolves to a category row of the same
owner. -/
def WF (st : TrackerState) : Prop :=
  List.Pairwise (fun a b => a.id ≠ b.id) st.categories ∧
  (∀ c ∈ st.categories, c.id < st.next_category_id) ∧
  (∀ t ∈ st.transactions, t.category_id = none ∨
    ∃ c ∈ st.categories, some c.id = t.category_id ∧ c.user_id = t.user_id)

/-- One write operation of the tracker interface, as issued by one
logged-in user through the Flask routes. -/
inductive WriteOp where
  | addTxn (amount : Rat) (categoryId : Option Nat) (description : String)
      (dateStr : Option String)
  | addCat (name : String) (ctype : CategoryType)
  | delCat (cid : Nat)
  | delTxn (tid : Nat)

/-- The state reached after user `uid` performs one write (failed calls
leave the state unchanged, as each method commits or rolls back). -/
def applyOp (uid : Nat) (st : TrackerState) : WriteOp → TrackerState
  | .addTxn a c d s => (add_transaction st uid a c d s).2
  | .addCat n ty => (add_category st uid n ty).2
  | .delCat cid => (delete_category st uid cid).2
  | .delTxn tid => (delete_transaction st uid tid).2

/-- The state reached after user `uid` performs a sequence of writes. -/
def applyOps (uid : Nat) (st : TrackerState) (ops : List WriteOp) :
    TrackerState :=
  ops.foldl (applyOp uid) st

/-- A concrete state shared by the witnesses: user 1 owns an income
category (id 1) and an expense category (id 2) and two transactions
(100 income on 2024-01-01, 40 expense on 2024-01-02); user 2 owns
category 3. -/
def sampleState : TrackerState :=
  { categories := [⟨1, 1, "薪水", .income⟩, ⟨2, 1, "餐費", .expense⟩,
                   ⟨3, 2, "misc", .expense⟩]
    transactions := [⟨1, 1, 100, some 1, "", ⟨2024, 1, 1⟩, 0⟩,
                     ⟨2, 1, 40, some 2, "", ⟨2024, 1, 2⟩, 1⟩]
    next_category_id := 4
    next_transaction_id := 3
    today := ⟨2024, 2, 1⟩
    clock := 2 }

/-!  Generic list lemmas used throughout. -/

theorem mem_insertSorted {α : Type} (le : α → α → Bool) (a x : α) (l : List α) :
    x ∈ insertSorted le a l ↔ x = a ∨ x ∈ l := by
  induction l with
  | nil => simp [insertSorted]
  | cons b l ih =>
    by_cases h : le a b = true
    · simp [insertSorted, h, List.mem_cons]
    · simp [insertSorted, h, List.mem_cons, ih]
      tauto

theorem mem_sortByKey {α : Type} (le : α → α → Bool) (x : α) (l : List α) :
    x ∈ sortByKey le l ↔ x ∈ l := by
  induction l with
  | nil => simp [sortByKey]
  | cons a l ih =>
    simp [sortByKey, mem_insertSorted, ih, List.mem_cons]

theorem pairwise_insertSorted {α : Type} {le : α → α → Bool}
    (htot : ∀ a b, le a b = true ∨ le b a = true)
    (htr : ∀ a b c, le a b = true → le b c = true → le a c = true)
    (a : α) : ∀ l : List α, List.Pairwise (fun x y => le x y = true) l →
    List.Pairwise (fun x y => le x y = true) (insertSorted le a l) := by
  intro l
  induction l with
  | nil => intro _; simp [insertSorted]
  | cons b l ih =>
    intro hl
    obtain ⟨hb, hl⟩ := List.pairwise_cons.mp hl
    by_cases h : le a b = true
    · simp only [insertSorted, h, if_true]
      refine List.Pairwise.cons ?_ (List.Pairwise.cons hb hl)
      intro x hx
      rcases List.mem_cons.mp hx with rfl | hx
      · exact h
      · exact htr a b x h (hb x hx)
    · have hba : le b a = true := by
        rcases htot a b with h1 | h1
        · exact absurd h1 h
        · exact h1
      simp only [insertSorted, h, if_false]
      refine List.Pairwise.cons ?_ (ih hl)
      intro x hx
      rcases (mem_insertSorted le a x l).mp hx with rfl | hx
      · exact hba
      · exact hb x hx

theorem pairwise_sortByKey {α : Type} {le : α → α → Bool}
    (htot : ∀ a b, le a b = true ∨ le b a = true)
    (htr : ∀ a b c, le a b = true → le b c = true → le a c = true)
    (l : List α) :
    List.Pairwise (fun x y => le x y = true) (sortByKey le l) := by
  induction l with
  | nil => exact List.Pairwise.nil
  | cons a l ih => exact pairwise_insertSorted htot htr a (sortByKey le l) ih

theorem find?_eraseP_of_disjoint {α : Type} {p q : α → Bool}
    (hpq : ∀ x, q x = true → p x = false) (l : List α) :
    (l.eraseP q).find? p = l.find? p := by
  induction l with
  | nil => rfl
  | cons a l ih =>
    by_cases hq : q a = true
    · have hp := hpq a hq
      simp [List.eraseP_cons, hq, List.find?, hp]
    · simp only [List.eraseP_cons, Bool.not_eq_true] at hq ⊢
      simp only [hq, if_neg]
      by_cases hp : p a = true
      · simp [List.find?, hp]
      · simp only [Bool.not_eq_true] at hp
        simp [List.find?, hp, ih]

theorem filter_eraseP_of_disjoint {α : Type} {p q : α → Bool}
    (hpq : ∀ x, q x = true → p x = false) (l : List α) :
    (l.eraseP q).filter p = l.filter p := by
  induction l with
  | nil => rfl
  | cons a l ih =>
    by_cases hq : q a = true
    · have hp := hpq a hq
      simp [List.eraseP_cons, hq, List.filter, hp]
    · simp only [List.eraseP_cons, Bool.not_eq_true] at hq ⊢
      simp only [hq, if_neg]
      by_cases hp : p a = true
      · simp [List.filter, hp, ih]
      · simp only [Bool.not_eq_true] at hp
        simp [List.filter, hp, ih]

theorem filter_map_id_on {α : Type} {p : α → Bool} {f : α → α} (l : List α)
    (hpf : ∀ x, p (f x) = p x)
    (hid : ∀ x ∈ l, p x = true → f x = x) :
    (l.map f).filter p = l.filter p := by
  induction l with
  | nil => rfl
  | cons a l ih =>
    have ih' := ih (fun x hx hpx => hid x (List.mem_cons_of_mem a hx) hpx)
    by_cases hp : p a = true
    · have hfa : f a = a := hid a (List.mem_cons_self a l) hp
      simp [List.filter, hp, hfa, ih', hpf]
    · simp only [Bool.not_eq_true] at hp
      have : p (f a) = false := by rw [hpf, hp]
      simp [List.filter, hp, this, ih']

theorem mem_eraseP_of_not {α : Type} {q : α → Bool} {c : α} {l : List α}
    (hc : c ∈ l) (hq : q c = false) : c ∈ l.eraseP q := by
  induction l with
  | nil => cases hc
  | cons a l ih =>
    rcases List.mem_cons.mp hc with rfl | hc
    · simp [List.eraseP_cons, hq]
    · by_cases ha : q a = true
      · simpa [List.eraseP_cons, ha] using hc
      · simp only [Bool.not_eq_true] at ha
        simp [List.eraseP_cons, ha, List.mem_cons, ih hc]

theorem exists_find?_of_mem {α : Type} {p : α → Bool} {c : α} {l : List α}
    (hc : c ∈ l) (hp : p c = true) : ∃ y, l.find? p = some y := by
  induction l with
  | nil => cases hc
  | cons a l ih =>
    by_cases ha : p a = true
    · exact ⟨a, by simp [List.find?, ha]⟩
    · simp only [Bool.not_eq_true] at ha
      rcases List.mem_cons.mp hc with rfl | hc
      · rw [hp] at ha; cases ha
      · rcases ih hc with ⟨y, hy⟩
        exact ⟨y, by simp [List.find?, ha, hy]⟩

/-!  Totality and transitivity of the embedded `ORDER BY` comparators. -/

theorem dateLtb_or_eq_total (d1 d2 : DateYMD) :
    dateLtb d1 d2 = true ∨ dateLtb d2 d1 = true ∨ d1 = d2 := by
  obtain ⟨y1, m1, a1⟩ := d1
  obtain ⟨y2, m2, a2⟩ := d2
  simp only [dateLtb, Bool.or_eq_true, Bool.and_eq_true, decide_eq_true_eq,
    beq_iff_eq, DateYMD.mk.injEq]
  omega

theorem dateLtb_trans {d1 d2 d3 : DateYMD}
    (h1 : dateLtb d1 d2 = true) (h2 : dateLtb d2 d3 = true) :
    dateLtb d1 d3 = true := by
  obtain ⟨y1, m1, a1⟩ := d1
  obtain ⟨y2, m2, a2⟩ := d2
  obtain ⟨y3, m3, a3⟩ := d3
  simp only [dateLtb, Bool.or_eq_true, Bool.and_eq_true, decide_eq_true_eq,
    beq_iff_eq] at h1 h2 ⊢
  omega

theorem dateLtb_asymm {d1 d2 : DateYMD} (h : dateLtb d1 d2 = true) :
    dateLtb d2 d1 = false := by
  obtain ⟨y1, m1, a1⟩ := d1
  obtain ⟨y2, m2, a2⟩ := d2
  simp only [dateLtb, Bool.or_eq_true, Bool.and_eq_true, decide_eq_true_eq,
    beq_iff_eq, Bool.or_eq_false_iff, Bool.and_eq_false_iff,
    decide_eq_false_iff_not, beq_eq_false_iff_ne, ne_eq] at h ⊢
  omega

theorem dateLtb_irrefl (d : DateYMD) : dateLtb d d = false := by
  obtain ⟨y, m, a⟩ := d
  simp [dateLtb]

theorem txnBefore_total (t1 t2 : TransactionRow) :
    txnBefore t1 t2 = true ∨ txnBefore t2 t1 = true := by
  by_cases h : t1.date = t2.date
  · have h' : t2.date = t1.date := h.symm
    rcases Nat.le_total t2.created_at t1.created_at with h1 | h1
    · left; simp [txnBefore, h, h1]
    · right; simp [txnBefore, h', h1]
  · rcases dateLtb_or_eq_total t1.date t2.date with h1 | h1 | h1
    · right; simp [txnBefore, Ne.symm h, h1]
    · left; simp [txnBefore, h, h1]
    · exact absurd h1 h

theorem txnBefore_trans {t1 t2 t3 : TransactionRow}
    (h1 : txnBefore t1 t2 = true) (h2 : txnBefore t2 t3 = true) :
    txnBefore t1 t3 = true := by
  by_cases e12 : t1.date = t2.date <;> by_cases e23 : t2.date = t3.date
  · have e13 : t1.date = t3.date := e12.trans e23
    simp only [txnBefore, e12, e23, e13, if_true, decide_eq_true_eq] at h1 h2 ⊢
    omega
  · simp only [txnBefore, e12, e23, if_true, if_false, decide_eq_true_eq] at h1 h2 ⊢
    exact h2
  · have e13 : ¬ (t1.date = t3.date) := fun e => e12 (e.trans e23.symm)
    simp only [txnBefore, e12, e23, e13, if_true, if_false, decide_eq_true_eq] at h1 h2 ⊢
    exact h1
  · simp only [txnBefore, e12, e23, if_false] at h1 h2
    have h13 : dateLtb t3.date t1.date = true := dateLtb_trans h2 h1
    have e13 : t1.date ≠ t3.date := by
      intro e
      rw [e] at h13
      rw [dateLtb_irrefl] at h13
      cases h13
    simp only [txnBefore, e13, if_false]
    exact h13

theorem strLeChars_total (l1 l2 : List Char) :
    strLeChars l1 l2 = true ∨ strLeChars l2 l1 = true := by
  induction l1 generalizing l2 with
  | nil => left; rfl
  | cons a as ih =>
    cases l2 with
    | nil => right; rfl
    | cons b bs =>
      by_cases hab : a.toNat < b.toNat
      · left
        simp [strLeChars, hab]
      · by_cases hba : b.toNat < a.toNat
        · right
          simp [strLeChars, hba]
        · rcases ih bs with h | h
          · left; simpa [strLeChars, hab, hba] using h
          · right; simpa [strLeChars, hab, hba] using h

theorem strLeChars_trans : ∀ {l1 l2 l3 : List Char},
    strLeChars l1 l2 = true → strLeChars l2 l3 = true → strLeChars l1 l3 = true
  | [], _, _, _, _ => rfl
  | a :: as, [], _, h1, _ => by cases h1
  | a :: as, b :: bs, [], _, h2 => by cases h2
  | a :: as, b :: bs, c :: cs, h1, h2 => by
    by_cases hab : a.toNat < b.toNat
    · by_cases hbc : b.toNat < c.toNat
      · have hac : a.toNat < c.toNat := Nat.lt_trans hab hbc
        simp [strLeChars, hac]
      · by_cases hcb : c.toNat < b.toNat
        · simp only [strLeChars, hbc, hcb, if_true, if_false] at h2
          cases h2
        · have hac : a.toNat < c.toNat := by omega
          simp [strLeChars, hac]
    · by_cases hba : b.toNat < a.toNat
      · simp only [strLeChars, hab, hba, if_true, if_false] at h1
        cases h1
      · simp only [strLeChars, hab, hba, if_true, if_false] at h1
        by_cases hbc : b.toNat < c.toNat
        · have hac : a.toNat < c.toNat := by omega
          simp [strLeChars, hac]
        · by_cases hcb : c.toNat < b.toNat
          · simp only [strLeChars, hbc, hcb, if_true, if_false] at h2
            cases h2
          · simp only [strLeChars, hbc, hcb, if_true, if_false] at h2
            have hac : ¬ a.toNat < c.toNat := by omega
            have hca : ¬ c.toNat < a.toNat := by omega
            simp only [strLeChars, hac, hca, if_true, if_false]
            exact strLeChars_trans h1 h2

theorem catLe_total (c1 c2 : CLI.CategoryRow) :
    CLI.catLe c1 c2 = true ∨ CLI.catLe c2 c1 = true := by
  rcases c1 with ⟨i1, n1, t1⟩
  rcases c2 with ⟨i2, n2, t2⟩
  cases t1 <;> cases t2 <;> simp [CLI.catLe, strLe] <;>
    exact strLeChars_total _ _

theorem catLe_trans {c1 c2 c3 : CLI.CategoryRow}
    (h1 : CLI.catLe c1 c2 = true) (h2 : CLI.catLe c2 c3 = true) :
    CLI.catLe c1 c3 = true := by
  rcases c1 with ⟨i1, n1, t1⟩
  rcases c2 with ⟨i2, n2, t2⟩
  rcases c3 with ⟨i3, n3, t3⟩
  cases t1 <;> cases t2 <;> cases t3 <;>
    simp only [CLI.catLe, strLe] at h1 h2 ⊢ <;>
    first
      | rfl
      | exact strLeChars_trans h1 h2
      | exact absurd h1 Bool.false_ne_true
      | exact absurd h2 Bool.false_ne_true

/-- C9: constructing the tracker (`init_database`, as `__init__` calls it)
drops all tables before recreating them, so whatever was persisted before,
afterwards the transactions table is empty and the categories table holds
exactly the 10 default categories — 3 income and 7 expense; the count
check that would skip seeding sees the just-dropped (empty) categories
table, so it never triggers. -/
theorem init_database_resets_and_seeds (st : CLI.DBState) :
    CLI.init_database st =
      { categories := CLI.default_categories, transactions := [] } ∧
    (CLI.init_database st).transactions = [] ∧
    (CLI.init_database st).categories.length = 10 ∧
    ((CLI.init_database st).categories.filter
      (fun c => c.ctype == CategoryType.income)).length = 3 ∧
    ((CLI.init_database st).categories.filter
      (fun c => c.ctype == CategoryType.expense)).length = 7 ∧
    ¬ ((CLI.drop_and_create_all st).categories.length > 0) :=
  ⟨rfl, rfl, rfl, rfl, rfl, by simp [CLI.drop_and_create_all]⟩

/-- C10: `get_categories` treats every non-empty type filter other than
the exact string `"income"` as the expense filter — the result equals the
result for `"expense"`, no error is raised — and results are ordered by
(type, name) ascending. -/
theorem get_categories_nonincome_filter (st : CLI.DBState) (s : String)
    (h1 : s ≠ "") (h2 : s ≠ "income") :
    CLI.get_categories st (some s) = CLI.get_categories st (some "expense") ∧
    ∃ cs : List CLI.CategoryRow,
      List.Pairwise (fun a b => CLI.catLe a b = true) cs ∧
      CLI.get_categories st (some s) =
        cs.map (fun c => (c.id, c.name, typeValue c.ctype)) := by
  constructor
  · simp [CLI.get_categories, h1, h2]
  · have he : CLI.get_categories st (some s) =
        (sortByKey CLI.catLe
          (st.categories.filter (fun c => c.ctype == CategoryType.expense))).map
          (fun c => (c.id, c.name, typeValue c.ctype)) := by
      simp [CLI.get_categories, h1, h2]
    exact ⟨_, pairwise_sortByKey catLe_total (fun a b c ha hb => catLe_trans ha hb) _, he⟩

/-- Witness for C10 at the seeded table and the filter string "xyz". -/
theorem get_categories_nonincome_filter_witness :
    CLI.get_categories ⟨CLI.default_categories, []⟩ (some "xyz") =
      CLI.get_categories ⟨CLI.default_categories, []⟩ (some "expense") :=
  (get_categories_nonincome_filter ⟨CLI.default_categories, []⟩ "xyz"
    (by decide) (by decide)).1

/-- C3: `get_balance(U)` returns `balance = total_income - total_expense`,
where `total_income` (resp. `total_expense`) is the sum of the amounts of
U's transactions whose resolved category has type income (resp. expense). -/
theorem get_balance_identity (st : TrackerState) (uid : Nat) :
    (get_balance st uid).balance =
      (get_balance st uid).total_income - (get_balance st uid).total_expense ∧
    (get_balance st uid).total_income =
      ((st.transactions.filter (fun t =>
          t.user_id == uid &&
            ((resolveCategory st.categories t.category_id).map
              (fun c => c.ctype) == some CategoryType.income))).map
        (fun t => t.amount)).sum ∧
    (get_balance st uid).total_expense =
      ((st.transactions.filter (fun t =>
          t.user_id == uid &&
            ((resolveCategory st.categories t.category_id).map
              (fun c => c.ctype) == some CategoryType.expense))).map
        (fun t => t.amount)).sum := by
  refine ⟨rfl, ?_, ?_⟩ <;>
  · show sumByType st uid _ = _
    unfold sumByType
    rw [List.filter_filter]
    congr 1
    congr 1
    apply List.filter_congr
    intro t _
    cases hr : resolveCategory st.categories t.category_id with
    | none => simp [hr]
    | some c =>
      simp only [hr, Option.map_some]
      cases hc : c.ctype <;> cases hu : (t.user_id == uid) <;> simp [hc, hu]

/-- C4: `get_balance` excludes transactions with no resolvable category
from both sums — appending such a transaction leaves the result
unchanged — and returns all-zero when the user has no qualifying
transactions (it is a total function: it never fails). -/
theorem get_balance_excludes_unresolved (st : TrackerState) (uid : Nat) :
    (∀ t : TransactionRow, resolveCategory st.categories t.category_id = none →
      get_balance { st with transactions := st.transactions ++ [t] } uid =
        get_balance st uid) ∧
    ((∀ t ∈ st.transactions, t.user_id = uid →
        resolveCategory st.categories t.category_id = none) →
      get_balance st uid = ⟨0, 0, 0⟩) := by
  constructor
  · intro t ht
    have hs : ∀ ty : CategoryType,
        sumByType { st with transactions := st.transactions ++ [t] } uid ty =
          sumByType st uid ty := by
      intro ty
      by_cases hu : (t.user_id == uid) = true
      · simp [sumByType, List.filter_append, hu, ht]
      · simp only [Bool.not_eq_true] at hu
        simp [sumByType, List.filter_append, hu]
    simp [get_balance, hs]
  · intro h
    have hs : ∀ ty : CategoryType, sumByType st uid ty = 0 := by
      intro ty
      unfold sumByType
      rw [show (st.transactions.filter (fun t => t.user_id == uid)).filter
            (fun t =>
              match resolveCategory st.categories t.category_id with
              | some c => c.ctype == ty
              | none => false) = [] from ?_]
      · rfl
      · rw [List.filter_eq_nil_iff]
        intro t hmem
        obtain ⟨hmem, hu⟩ := List.mem_filter.mp hmem
        rw [h t hmem (by simpa using hu)]
        simp
    simp only [get_balance, hs]
    norm_num

/-- Witness for C4: a user whose only transaction is uncategorized gets
the all-zero balance record. -/
theorem get_balance_excludes_unresolved_witness :
    get_balance
      ⟨[⟨1, 1, "薪水", .income⟩], [⟨1, 1, 5, none, "", ⟨2024, 1, 1⟩, 0⟩],
        2, 2, ⟨2024, 1, 2⟩, 1⟩ 1 = ⟨0, 0, 0⟩ :=
  (get_balance_excludes_unresolved _ 1).2 (by decide)

/-- C5: `add_category` with a (user, name, type) triple that already
exists fails with `ConflictError` and leaves the categories table
unchanged (no duplicate row); otherwise it inserts exactly one row and
returns the new identifier. -/
theorem add_category_conflict_or_insert (st : TrackerState) (uid : Nat)
    (name : String) (ty : CategoryType) :
    ((∃ c ∈ st.categories, c.user_id = uid ∧ c.name = name ∧ c.ctype = ty) →
      add_category st uid name ty = (.error .conflictError, st)) ∧
    ((¬ ∃ c ∈ st.categories, c.user_id = uid ∧ c.name = name ∧ c.ctype = ty) →
      add_category st uid name ty =
        (.ok st.next_category_id,
         { st with
             categories :=
               st.categories ++ [⟨st.next_category_id, uid, name, ty⟩]
             next_category_id := st.next_category_id + 1 })) := by
  have hiff :
      (st.categories.any
        (fun c => c.user_id == uid && c.name == name && c.ctype == ty) = true) ↔
      ∃ c ∈ st.categories, c.user_id = uid ∧ c.name = name ∧ c.ctype = ty := by
    simp [List.any_eq_true, and_assoc]
  constructor
  · intro h
    simp [add_category, hiff.mpr h]
  · intro h
    have hfalse : ¬ (st.categories.any
        (fun c => c.user_id == uid && c.name == name && c.ctype == ty) = true) :=
      fun ha => h (hiff.mp ha)
    simp [add_category, hfalse]

/-- Witness for C5: adding the already-present (user 1, "薪水", income)
triple fails with a conflict and leaves the state unchanged. -/
theorem add_category_conflict_witness :
    add_category sampleState 1 ("薪水") CategoryType.income =
      (.error .conflictError, sampleState) :=
  (add_category_conflict_or_insert sampleState 1 ("薪水")
    CategoryType.income).1 (by decide)

/-- C6: a successful `delete_category` deletes no transaction (the row
count is unchanged), nulls the category reference of every transaction
that pointed to the deleted category, and those transactions display the
"未分類"/"unknown" sentinels afterwards. -/
theorem delete_category_preserves_transactions (st : TrackerState)
    (uid cid : Nat) (h : (delete_category st uid cid).1 = true) :
    (delete_category st uid cid).2.transactions.length =
      st.transactions.length ∧
    (delete_category st uid cid).2.transactions =
      st.transactions.map (fun t =>
        if t.category_id = some cid then { t with category_id := none } else t) ∧
    (∀ t ∈ st.transactions, t.category_id = some cid →
      ∃ t' ∈ (delete_category st uid cid).2.transactions,
        t' = { t with category_id := none } ∧
        displayRow (delete_category st uid cid).2.categories t' =
          ⟨t.id, t.amount, "未分類", "unknown", t.description, t.date⟩) := by
  unfold delete_category at h ⊢
  cases hf : st.categories.find? (fun c => c.id == cid && c.user_id == uid) with
  | none => rw [hf] at h; cases h
  | some d =>
    refine ⟨by simp, rfl, ?_⟩
    intro t hmem ht
    refine ⟨{ t with category_id := none }, ?_, rfl, rfl⟩
    simp only [List.mem_map]
    exact ⟨t, hmem, by simp [ht]⟩

/-- Witness for C6 at the sample state: deleting user 1's expense
category leaves both transactions in the table. -/
theorem delete_category_preserves_transactions_witness :
    (delete_category sampleState 1 2).2.transactions.length =
      sampleState.transactions.length :=
  (delete_category_preserves_transactions sampleState 1 2 (by decide)).1

/-- C8: in `add_transaction`, an omitted date defaults to the current
calendar date (the inserted row carries `st.today`); a supplied date
string that does not parse as `YYYY-MM-DD` makes the call fail with
`ValidationError` as a controlled error result, with nothing written. -/
theorem add_transaction_date_handling (st : TrackerState) (uid : Nat)
    (amount : Rat) (categoryId : Option Nat) (description : String) :
    (∀ s : String, parseDateYMD s = none →
      add_transaction st uid amount categoryId description (some s) =
        (.error .validationError, st)) ∧
    (∀ tid st',
      add_transaction st uid amount categoryId description none =
        (.ok tid, st') →
      tid = st.next_transaction_id ∧
      st'.transactions = st.transactions ++
        [⟨tid, uid, amount, categoryId, description, st.today, st.clock⟩]) := by
  constructor
  · intro s hs
    simp [add_transaction, hs]
  · intro tid st' h
    by_cases ho : ownership_check st uid categoryId = true
    · simp only [add_transaction, ho, if_true] at h
      obtain ⟨h1, h2⟩ := Prod.mk.injEq .. |>.mp h
      obtain rfl : st.next_transaction_id = tid := Except.ok.injEq .. |>.mp h1
      subst h2
      exact ⟨rfl, rfl⟩
    · simp only [Bool.not_eq_true] at ho
      simp only [add_transaction, ho, Bool.false_eq_true, if_false] at h
      cases h

/-- Witness for C8: an unparsable date string is rejected with a
validation error and the state is unchanged. -/
theorem add_transaction_date_handling_witness :
    add_transaction sampleState 1 7 none ("") (some "not-a-date") =
      (.error .validationError, sampleState) :=
  (add_transaction_date_handling sampleState 1 7 none ("")).1
    "not-a-date" (by decide)

/-- C2: supplying a `categoryId` that does not resolve to a category
owned by the calling user (together with a well-formed or omitted date,
which `add_transaction` checks first) fails with `OwnershipError` and
leaves the state — in particular the transaction table and its row
count — unchanged. -/
theorem add_transaction_foreign_category_rejected (st : TrackerState)
    (uid : Nat) (amount : Rat) (cid : Nat) (description : String)
    (dateStr : Option String)
    (hdate : dateStr = none ∨ ∃ d s, dateStr = some s ∧ parseDateYMD s = some d)
    (hown : ∀ c ∈ st.categories, c.id = cid → c.user_id ≠ uid) :
    add_transaction st uid amount (some cid) description dateStr =
      (.error .ownershipError, st) := by
  have hchk : ownership_check st uid (some cid) = false := by
    show (match st.categories.find? (fun c => c.id == cid) with
          | some c => c.user_id == uid
          | none => false) = false
    cases hr : st.categories.find? (fun c => c.id == cid) with
    | none => rfl
    | some c =>
      have hmem := List.mem_of_find?_eq_some hr
      have hid := List.find?_some hr
      have hne := hown c hmem (by simpa using hid)
      simpa using hne
  rcases hdate with rfl | ⟨d, s, rfl, hs⟩
  · simp [add_transaction, hchk]
  · simp [add_transaction, hs, hchk]

/-- Witness for C2: user 1 attaching user 2's category is rejected and
the state is unchanged. -/
theorem add_transaction_foreign_category_witness :
    add_transaction sampleState 1 5 (some 3) ("") none =
      (.error .ownershipError, sampleState) :=
  add_transaction_foreign_category_rejected sampleState 1 5 3 ("") none
    (Or.inl rfl) (by decide)

/-- C7: `get_transactions(user, limit)` returns at most `limit` rows,
drawn from the user's transactions ordered by business date descending
with ties broken by creation timestamp descending, and each row carries
(in order) id, amount, resolved category name ("未分類" sentinel when the
reference resolves to nothing), resolved category type ("unknown"
sentinel likewise), description and date. -/
theorem get_transactions_ordered_limited (st : TrackerState) (uid : Nat)
    (limit : Nat) :
    (get_transactions st uid limit).length ≤ limit ∧
    (∃ ts : List TransactionRow,
      List.Pairwise (fun a b => txnBefore a b = true) ts ∧
      (∀ t ∈ ts, t ∈ st.transactions ∧ t.user_id = uid) ∧
      get_transactions st uid limit = ts.map (displayRow st.categories)) ∧
    (∀ t : TransactionRow,
      resolveCategory st.categories t.category_id = none →
      displayRow st.categories t =
        ⟨t.id, t.amount, "未分類", "unknown", t.description, t.date⟩) ∧
    (∀ t : TransactionRow, ∀ c,
      resolveCategory st.categories t.category_id = some c →
      displayRow st.categories t =
        ⟨t.id, t.amount, c.name, typeValue c.ctype, t.description, t.date⟩) := by
  refine ⟨?_,
    ⟨List.take limit
      (sortByKey txnBefore (st.transactions.filter (fun t => t.user_id == uid))),
      ?_, ?_, ?_⟩, ?_, ?_⟩
  · rw [get_transactions, List.length_map]
    have := List.length_take limit
      (sortByKey txnBefore (st.transactions.filter (fun t => t.user_id == uid)))
    omega
  · exact List.Pairwise.sublist
      (List.take_sublist _ _)
      (pairwise_sortByKey txnBefore_total
        (fun a b c ha hb => txnBefore_trans ha hb) _)
  · intro t ht
    have hmem := List.take_subset _ _ ht
    rw [mem_sortByKey] at hmem
    obtain ⟨hmem, hu⟩ := List.mem_filter.mp hmem
    exact ⟨hmem, by simpa using hu⟩
  · rfl
  · intro t ht
    unfold displayRow
    rw [ht]
  · intro t c hc
    unfold displayRow
    rw [hc]

/-- Witness for C7 at the sample state with limit 1. -/
theorem get_transactions_ordered_limited_witness :
    (get_transactions sampleState 1 1).length ≤ 1 :=
  (get_transactions_ordered_limited sampleState 1 1).1

/-!  Case analyses of the write operations' resulting states. -/

theorem add_transaction_snd_cases (st : TrackerState) (uid : Nat) (a : Rat)
    (c : Option Nat) (d : String) (s : Option String) :
    (add_transaction st uid a c d s).2 = st ∨
    ∃ dt, ownership_check st uid c = true ∧
      (add_transaction st uid a c d s).2 =
        { st with
            transactions := st.transactions ++
              [⟨st.next_transaction_id, uid, a, c, d, dt, st.clock⟩]
            next_transaction_id := st.next_transaction_id + 1
            clock := st.clock + 1 } := by
  unfold add_transaction
  cases s with
  | none =>
    by_cases ho : ownership_check st uid c = true
    · right; exact ⟨st.today, ho, by simp [ho]⟩
    · left; simp only [Bool.not_eq_true] at ho; simp [ho]
  | some str =>
    cases hp : parseDateYMD str with
    | none => left; simp [hp]
    | some dt =>
      by_cases ho : ownership_check st uid c = true
      · right; exact ⟨dt, ho, by simp [hp, ho]⟩
      · left; simp only [Bool.not_eq_true] at ho; simp [hp, ho]

theorem add_category_snd_cases (st : TrackerState) (uid : Nat) (n : String)
    (ty : CategoryType) :
    (add_category st uid n ty).2 = st ∨
    (add_category st uid n ty).2 =
      { st with
          categories := st.categories ++ [⟨st.next_category_id, uid, n, ty⟩]
          next_category_id := st.next_category_id + 1 } := by
  unfold add_category
  by_cases h : (st.categories.any
      (fun c => c.user_id == uid && c.name == n && c.ctype == ty)) = true
  · left; simp [h]
  · simp only [Bool.not_eq_true] at h; right; simp [h]

theorem delete_category_snd_cases (st : TrackerState) (uid cid : Nat) :
    (delete_category st uid cid).2 = st ∨
    ((∃ d, st.categories.find?
        (fun c => c.id == cid && c.user_id == uid) = some d) ∧
      (delete_category st uid cid).2 =
        { st with
            categories :=
              st.categories.eraseP (fun c => c.id == cid && c.user_id == uid)
            transactions := st.transactions.map (fun t =>
              if t.category_id = some cid then { t with category_id := none }
              else t) }) := by
  unfold delete_category
  cases hf : st.categories.find? (fun c => c.id == cid && c.user_id == uid) with
  | none => left; rfl
  | some d => right; exact ⟨⟨d, rfl⟩, rfl⟩

theorem delete_transaction_snd_cases (st : TrackerState) (uid tid : Nat) :
    (delete_transaction st uid tid).2 = st ∨
    (delete_transaction st uid tid).2 =
      { st with
          transactions :=
            st.transactions.eraseP (fun t => t.id == tid && t.user_id == uid) } := by
  unfold delete_transaction
  cases hf : st.transactions.find? (fun t => t.id == tid && t.user_id == uid) with
  | none => left; rfl
  | some d => right; rfl

/-!  Preservation of the schema invariants by every write operation. -/

theorem mem_unique_of_pairwise_ne {c d : CategoryRow} :
    ∀ {l : List CategoryRow}, List.Pairwise (fun a b => a.id ≠ b.id) l →
      c ∈ l → d ∈ l → c.id = d.id → c = d := by
  intro l
  induction l with
  | nil => intro _ hc; cases hc
  | cons a l ih =>
    intro h hc hd hid
    obtain ⟨ha, h'⟩ := List.pairwise_cons.mp h
    rcases List.mem_cons.mp hc with rfl | hc'
    · rcases List.mem_cons.mp hd with rfl | hd'
      · rfl
      · exact absurd hid (ha d hd')
    · rcases List.mem_cons.mp hd with rfl | hd'
      · exact absurd hid.symm (ha c hc')
      · exact ih h' hc' hd' hid

theorem ownership_check_some {st : TrackerState} {uid cid : Nat}
    (h : ownership_check st uid (some cid) = true) :
    ∃ c ∈ st.categories, c.id = cid ∧ c.user_id = uid := by
  revert h
  show (match st.categories.find? (fun c => c.id == cid) with
        | some c => c.user_id == uid
        | none => false) = true → _
  cases hr : st.categories.find? (fun c => c.id == cid) with
  | none => intro h; cases h
  | some c =>
    intro h
    refine ⟨c, List.mem_of_find?_eq_some hr, ?_, by simpa using h⟩
    have := List.find?_some hr
    simpa using this

theorem wf_add_transaction (st : TrackerState) (uid : Nat) (a : Rat)
    (c : Option Nat) (d : String) (s : Option String) (hwf : WF st) :
    WF (add_transaction st uid a c d s).2 := by
  rcases add_transaction_snd_cases st uid a c d s with h | ⟨dt, ho, h⟩
  · rw [h]; exact hwf
  · rw [h]
    obtain ⟨h1, h2, h3⟩ := hwf
    refine ⟨h1, h2, ?_⟩
    intro t ht
    rcases List.mem_append.mp ht with ht | ht
    · exact h3 t ht
    · rcases List.mem_singleton.mp ht with rfl
      cases c with
      | none => left; rfl
      | some cid =>
        right
        obtain ⟨cc, hmem, hcid, hcu⟩ := ownership_check_some ho
        exact ⟨cc, hmem, by rw [hcid], hcu⟩

theorem wf_add_category (st : TrackerState) (uid : Nat) (n : String)
    (ty : CategoryType) (hwf : WF st) : WF (add_category st uid n ty).2 := by
  rcases add_category_snd_cases st uid n ty with h | h
  · rw [h]; exact hwf
  · rw [h]
    obtain ⟨h1, h2, h3⟩ := hwf
    refine ⟨?_, ?_, ?_⟩
    · rw [List.pairwise_append]
      refine ⟨h1, by simp, ?_⟩
      intro x hx y hy
      rcases List.mem_singleton.mp hy with rfl
      exact Nat.ne_of_lt (h2 x hx)
    · intro c hc
      rcases List.mem_append.mp hc with hc | hc
      · exact Nat.lt_succ_of_lt (h2 c hc)
      · rcases List.mem_singleton.mp hc with rfl
        exact Nat.lt_succ_self _
    · intro t ht
      rcases h3 t ht with hnone | ⟨c, hcmem, hcid, hcu⟩
      · left; exact hnone
      · right; exact ⟨c, List.mem_append_left _ hcmem, hcid, hcu⟩

theorem wf_delete_category (st : TrackerState) (uid cid : Nat) (hwf : WF st) :
    WF (delete_category st uid cid).2 := by
  rcases delete_category_snd_cases st uid cid with h | ⟨⟨d, hd⟩, h⟩
  · rw [h]; exact hwf
  · rw [h]
    obtain ⟨h1, h2, h3⟩ := hwf
    refine ⟨List.Pairwise.sublist (List.eraseP_sublist _) h1, ?_, ?_⟩
    · intro c hc
      exact h2 c (List.Sublist.subset (List.eraseP_sublist _) hc)
    · intro t ht
      obtain ⟨t0, ht0, rfl⟩ := List.mem_map.mp ht
      by_cases href : t0.category_id = some cid
      · rw [if_pos href]; left; rfl
      · rw [if_neg href]
        rcases h3 t0 ht0 with hnone | ⟨c, hcmem, hcid, hcu⟩
        · left; exact hnone
        · right
          refine ⟨c, ?_, hcid, hcu⟩
          have hne : c.id ≠ cid := by
            intro e
            apply href
            rw [← hcid, e]
          apply mem_eraseP_of_not hcmem
          simp [hne]

theorem wf_delete_transaction (st : TrackerState) (uid tid : Nat)
    (hwf : WF st) : WF (delete_transaction st uid tid).2 := by
  rcases delete_transaction_snd_cases st uid tid with h | h
  · rw [h]; exact hwf
  · rw [h]
    obtain ⟨h1, h2, h3⟩ := hwf
    exact ⟨h1, h2, fun t ht =>
      h3 t (List.Sublist.subset (List.eraseP_sublist _) ht)⟩

theorem wf_applyOp (uid : Nat) (st : TrackerState) (op : WriteOp)
    (hwf : WF st) : WF (applyOp uid st op) := by
  cases op with
  | addTxn a c d s => exact wf_add_transaction st uid a c d s hwf
  | addCat n ty => exact wf_add_category st uid n ty hwf
  | delCat cid => exact wf_delete_category st uid cid hwf
  | delTxn tid => exact wf_delete_transaction st uid tid hwf

/-!  The three reads depend only on the user's own projection of the
state: his filtered transactions with their resolutions, and his
filtered categories. -/

theorem get_balance_congr (st st' : TrackerState) (uid : Nat)
    (htx : st'.transactions.filter (fun t => t.user_id == uid) =
      st.transactions.filter (fun t => t.user_id == uid))
    (hres : ∀ t ∈ st.transactions, t.user_id = uid →
      resolveCategory st'.categories t.category_id =
        resolveCategory st.categories t.category_id) :
    get_balance st' uid = get_balance st uid := by
  have hsum : ∀ ty, sumByType st' uid ty = sumByType st uid ty := by
    intro ty
    unfold sumByType
    rw [htx]
    congr 1
    congr 1
    apply List.filter_congr
    intro t ht
    obtain ⟨hmem, hu⟩ := List.mem_filter.mp ht
    rw [hres t hmem (by simpa using hu)]
  unfold get_balance
  rw [hsum, hsum]

theorem get_transactions_congr (st st' : TrackerState) (uid : Nat)
    (htx : st'.transactions.filter (fun t => t.user_id == uid) =
      st.transactions.filter (fun t => t.user_id == uid))
    (hres : ∀ t ∈ st.transactions, t.user_id = uid →
      resolveCategory st'.categories t.category_id =
        resolveCategory st.categories t.category_id)
    (limit : Nat) :
    get_transactions st' uid limit = get_transactions st uid limit := by
  unfold get_transactions
  rw [htx]
  apply List.map_congr_left
  intro t ht
  have hmem := List.take_subset _ _ ht
  rw [mem_sortByKey] at hmem
  obtain ⟨hm, hu⟩ := List.mem_filter.mp hmem
  unfold displayRow
  rw [hres t hm (by simpa using hu)]

theorem get_categories_congr (st st' : TrackerState) (uid : Nat)
    (hcat : st'.categories.filter (fun c => c.user_id == uid) =
      st.categories.filter (fun c => c.user_id == uid))
    (f : Option String) :
    get_categories st' uid f = get_categories st uid f := by
  unfold get_categories
  rw [hcat]

/-- One write by user `B` leaves user `A`'s projection of a well-formed
state — filtered transactions, their category resolutions, and filtered
categories — untouched. -/
theorem step_preserves_reads (st : TrackerState) (A B : Nat) (hAB : A ≠ B)
    (hwf : WF st) (op : WriteOp) :
    (applyOp B st op).transactions.filter (fun t => t.user_id == A) =
      st.transactions.filter (fun t => t.user_id == A) ∧
    (∀ t ∈ st.transactions, t.user_id = A →
      resolveCategory (applyOp B st op).categories t.category_id =
        resolveCategory st.categories t.category_id) ∧
    (applyOp B st op).categories.filter (fun c => c.user_id == A) =
      st.categories.filter (fun c => c.user_id == A) := by
  obtain ⟨h1, h2, h3⟩ := hwf
  have hBA : (B == A) = false := by
    simp only [beq_eq_false_iff_ne, ne_eq]
    exact fun e => hAB e.symm
  cases op with
  | addTxn a c d s =>
    simp only [applyOp]
    rcases add_transaction_snd_cases st B a c d s with h | ⟨dt, ho, h⟩
    · rw [h]; exact ⟨rfl, fun _ _ _ => rfl, rfl⟩
    · rw [h]
      refine ⟨?_, fun _ _ _ => rfl, rfl⟩
      rw [List.filter_append]
      simp [hBA]
  | addCat n ty =>
    simp only [applyOp]
    rcases add_category_snd_cases st B n ty with h | h
    · rw [h]; exact ⟨rfl, fun _ _ _ => rfl, rfl⟩
    · rw [h]
      refine ⟨rfl, ?_, ?_⟩
      · intro t ht hu
        cases hc : t.category_id with
        | none => rfl
        | some cid =>
          rcases h3 t ht with hnone | ⟨c, hcmem, hcid, hcu⟩
          · rw [hnone] at hc; cases hc
          · rw [hc] at hcid
            have hcidv : c.id = cid := by
              exact Option.some.injEq .. |>.mp hcid
            obtain ⟨y, hy⟩ :=
              exists_find?_of_mem hcmem (p := fun x => x.id == cid)
                (by simpa using hcidv)
            show (st.categories ++ _).find? (fun x => x.id == cid) = _
            rw [List.find?_append, hy, Option.or_some]
            exact hy.symm
      · rw [List.filter_append]
        simp [hBA]
  | delCat cid0 =>
    simp only [applyOp]
    rcases delete_category_snd_cases st B cid0 with h | ⟨⟨d, hd⟩, h⟩
    · rw [h]; exact ⟨rfl, fun _ _ _ => rfl, rfl⟩
    · rw [h]
      have hdmem := List.mem_of_find?_eq_some hd
      have hdq := List.find?_some hd
      obtain ⟨hdid, hduser⟩ : d.id = cid0 ∧ d.user_id = B := by
        simpa using hdq
      have hAnotref : ∀ t ∈ st.transactions, t.user_id = A →
          t.category_id ≠ some cid0 := by
        intro t ht hu hcontra
        rcases h3 t ht with hnone | ⟨c, hcmem, hcid, hcu⟩
        · rw [hnone] at hcontra; cases hcontra
        · rw [hcontra] at hcid
          have hcidv : c.id = cid0 := Option.some.injEq .. |>.mp hcid
          have hcd : c = d :=
            mem_unique_of_pairwise_ne h1 hcmem hdmem (by rw [hcidv, hdid])
          apply hAB
          rw [← hu, ← hcu, hcd, hduser]
      refine ⟨?_, ?_, ?_⟩
      · apply filter_map_id_on
        · intro x
          by_cases hx : x.category_id = some cid0 <;> simp [hx]
        · intro x hx hpx
          have hxu : x.user_id = A := by simpa using hpx
          rw [if_neg (hAnotref x hx hxu)]
      · intro t ht hu
        cases hc : t.category_id with
        | none => rfl
        | some cid =>
          have hne : cid ≠ cid0 := by
            intro e
            exact hAnotref t ht hu (by rw [hc, e])
          show (st.categories.eraseP _).find? (fun x => x.id == cid) = _
          apply find?_eraseP_of_disjoint
          intro x hx
          obtain ⟨hxid, _⟩ : x.id = cid0 ∧ x.user_id = B := by simpa using hx
          simp [hxid, Ne.symm hne]
      · apply filter_eraseP_of_disjoint
        intro x hx
        obtain ⟨_, hxu⟩ : x.id = cid0 ∧ x.user_id = B := by simpa using hx
        simp [hxu, hBA]
  | delTxn tid =>
    simp only [applyOp]
    rcases delete_transaction_snd_cases st B tid with h | h
    · rw [h]; exact ⟨rfl, fun _ _ _ => rfl, rfl⟩
    · rw [h]
      refine ⟨?_, fun _ _ _ => rfl, rfl⟩
      apply filter_eraseP_of_disjoint
      intro x hx
      obtain ⟨_, hxu⟩ : x.id = tid ∧ x.user_id = B := by simpa using hx
      simp [hxu, hBA]

/-- C1: per-user data isolation (two-run noninterference over the user
parameter): on a well-formed state, any sequence of writes performed by
user `B` leaves every accounting read of a distinct user `A` —
`get_balance`, `get_transactions` at any limit, `get_categories` with any
filter — unchanged. -/
theorem per_user_isolation (st : TrackerState) (A B : Nat) (hAB : A ≠ B)
    (hwf : WF st) (ops : List WriteOp) :
    get_balance (applyOps B st ops) A = get_balance st A ∧
    (∀ limit, get_transactions (applyOps B st ops) A limit =
      get_transactions st A limit) ∧
    (∀ f, get_categories (applyOps B st ops) A f = get_categories st A f) := by
  induction ops generalizing st with
  | nil => exact ⟨rfl, fun _ => rfl, fun _ => rfl⟩
  | cons op ops ih =>
    obtain ⟨htx, hres, hcat⟩ := step_preserves_reads st A B hAB hwf op
    have hb := get_balance_congr st (applyOp B st op) A htx hres
    have ht := get_transactions_congr st (applyOp B st op) A htx hres
    have hc := get_categories_congr st (applyOp B st op) A hcat
    obtain ⟨ihb, iht, ihc⟩ := ih (applyOp B st op) (wf_applyOp B st op hwf)
    refine ⟨?_, ?_, ?_⟩
    · exact ihb.trans hb
    · intro limit
      exact (iht limit).trans (ht limit)
    · intro f
      exact (ihc f).trans (hc f)

/-- Witness for C1: user 2's successful write (adding a transaction
against their own category) does not change user 1's balance. -/
theorem per_user_isolation_witness :
    get_balance
      (applyOps 2 sampleState [WriteOp.addTxn 5 (some 3) ("note") none]) 1 =
      get_balance sampleState 1 :=
  (per_user_isolation sampleState 1 2 (by decide) (by unfold WF; decide)
    [WriteOp.addTxn 5 (some 3) ("note") none]).1
